import Mathlib

/-!
Verification of the ClearedJobs.net scraper pipeline (src/src/main.js,
API-first variant: `collectFromApi`, `collectFromSitemaps`, `mapApiJob`,
`mapJsonLdJob`, `fetchJobPage`, and the `Actor.main` orchestrator).

Shallow embedding conventions:
* JavaScript string-or-null values are `Option String`; `none` models
  `null`/`undefined`.  JS truthiness on such values (`null`, `undefined`
  and `""` are falsy) is the `truthy` predicate below.
* `a || b || ... || null` chains are `firstTruthy [...]`, and `a ?? b`
  chains are `firstSome [...]`.
* The HTTP transport and the HTML/JSON parsing primitives are external
  collaborators: every fetch site is parameterized by an environment
  function giving, per request (and per attempt where the code retries),
  either a thrown transport error or a status code plus an
  already-parsed body.  `cheerio.load(html).text()` is an injected
  function parameter `cf`.
-/

namespace ClearedJobs

/-- Model of JS truthiness for string-or-null values: `null`/`undefined`
(`none`) and the empty string are falsy. -/
def truthy : Option String → Bool
  | none => false
  | some s => !(s == "")

/-- `a || b` on string-or-null values (result of the chain is either a
truthy value or the right operand). -/
def jsOr (a b : Option String) : Option String :=
  if truthy a then a else b

/-- `v1 || v2 || ... || null`: first truthy value in the list, else `null`. -/
def firstTruthy : List (Option String) → Option String
  | [] => none
  | o :: rest => if truthy o then o else firstTruthy rest

/-- `v1 ?? v2 ?? ... ?? null`: first non-null value in the list, else `null`. -/
def firstSome : List (Option String) → Option String
  | [] => none
  | none :: rest => firstSome rest
  | some v :: _ => some v

/-- JS `\s` whitespace class (the characters relevant to this code base). -/
def isWs (c : Char) : Bool :=
  c == ' ' || c == '\t' || c == '\n' || c == '\r' || c == '\x0b' || c == '\x0c'

/-- State machine computing `text.replace(/\s+/g, ' ').trim()` over a char
list.  Mode 0: before the first word (leading whitespace dropped);
mode 1: inside a word; mode 2: in whitespace after a word (a single `' '`
is emitted only if another word follows, so trailing whitespace is
dropped and runs collapse to one space). -/
def nsGo : Nat → List Char → List Char
  | _, [] => []
  | 0, c :: cs => if isWs c then nsGo 0 cs else c :: nsGo 1 cs
  | 1, c :: cs => if isWs c then nsGo 2 cs else c :: nsGo 1 cs
  | _ + 2, c :: cs => if isWs c then nsGo 2 cs else ' ' :: c :: nsGo 1 cs

/-- `normalizeSpace` from main.js: `text.replace(/\s+/g, ' ').trim()`. -/
def normalizeSpace (s : String) : String :=
  ⟨nsGo 0 s.data⟩

/-- Pairwise whitespace condition: no two adjacent whitespace characters,
and the final character is not whitespace. -/
def wsTail : List Char → Bool
  | [] => true
  | [c] => !isWs c
  | c1 :: c2 :: rest => !(isWs c1 && isWs c2) && wsTail (c2 :: rest)

/-- A string is whitespace-normalized when it has no leading or trailing
whitespace and no run of two or more whitespace characters. -/
def wsNormalized (s : String) : Bool :=
  match s.data with
  | [] => true
  | c :: rest => !isWs c && wsTail (c :: rest)


/-- `safeJsonParse`/`JSON.parse` and the HTTP layer are external; bodies
arrive pre-parsed.  `BASE` from main.js. -/
def BASE : String := "https://clearedjobs.net"

/-- `s.startsWith(pre)` over the character lists (kernel-reducible). -/
def strStartsWith (s pre : String) : Bool :=
  pre.data.isPrefixOf s.data

/-- `s.toLowerCase()` over the character lists (kernel-reducible). -/
def strToLower (s : String) : String :=
  ⟨s.data.map Char.toLower⟩

/-- `s.trim()` over the character lists (kernel-reducible). -/
def jsTrim (s : String) : String :=
  ⟨((s.data.dropWhile isWs).reverse.dropWhile isWs).reverse⟩

/-- `arr.join(sep)` over a list of strings (kernel-reducible). -/
def joinSep (sep : String) : List String → String
  | [] => ""
  | [x] => x
  | x :: xs => x ++ sep ++ joinSep sep xs

/-- The characters following the first occurrence of `"://"`, if any. -/
def afterSchemeSep : List Char → Option (List Char)
  | [] => none
  | c :: cs =>
    if [':', '/', '/'].isPrefixOf (c :: cs) then some (cs.drop 2)
    else afterSchemeSep cs

/-- The host label between `"://"` and the next `/`, `?` or `#` is
non-empty: for special schemes like http(s), WHATWG URL parsing throws a
`TypeError` when it is empty (e.g. `new URL("http://")`). -/
def urlHostNonempty (raw : String) : Bool :=
  match afterSchemeSep raw.data with
  | some rest => !(rest.takeWhile (fun c => !(c == '/' || c == '?' || c == '#'))).isEmpty
  | none => false

/-- Model of `new URL(raw, BASE).href` for the URL shapes this code
produces: an absolute http(s) URL passes through when its host is
non-empty, and makes the constructor throw (`none`) otherwise, e.g. on
`"http://"`; a site-relative path resolves against `BASE`. -/
def resolveUrl (raw : String) : Option String :=
  if strStartsWith raw "http://" || strStartsWith raw "https://" then
    if urlHostNonempty raw then some raw else none
  else if strStartsWith raw "/" then some (BASE ++ raw)
  else some (BASE ++ "/" ++ raw)

/-- One entry of `job.customBlockList`: a labeled custom block. -/
structure Block where
  label : Option String := none
  title : Option String := none
  value : Option String := none
deriving DecidableEq

/-- A listing-page job object (the fields `mapApiJob`, `extractClearance`,
`extractJobType` and `extractFromBlocks` read from the `data`/`jobs`
array element). -/
structure Job where
  id : Option String := none
  url : Option String := none
  title : Option String := none
  job_title : Option String := none
  /-- `job.company?.name` (object form). -/
  companyName : Option String := none
  /-- `job.company` when it is a plain string. -/
  company : Option String := none
  location : Option String := none
  security_clearance : Option String := none
  job_type : Option String := none
  position_type : Option String := none
  positionType : Option String := none
  salary : Option String := none
  salary_min : Option String := none
  salary_max : Option String := none
  description : Option String := none
  body : Option String := none
  shortDescription : Option String := none
  posted_date : Option String := none
  modified_time : Option String := none
  created_at : Option String := none
  customBlockList : Option (List Block) := none
  customBlocklist : Option (List Block) := none
deriving DecidableEq

/-- The per-item `detail` / `additional` sub-resource body (fields read by
`mapApiJob` / `extractJobType`); defaults give the `{}` used when the
sub-request failed. -/
structure Detail where
  id : Option String := none
  url : Option String := none
  description : Option String := none
  body : Option String := none
  salary : Option String := none
  salary_min : Option String := none
  salary_max : Option String := none
  security_clearance : Option String := none
  location : Option String := none
  position_type : Option String := none
  positionType : Option String := none
  job_type : Option String := none
  employment_type : Option String := none
deriving DecidableEq

/-- Canonical output record (the object pushed to the dataset). -/
structure Item where
  source : String := ""
  id : Option String := none
  url : Option String := none
  title : Option String := none
  company : Option String := none
  location : Option String := none
  security_clearance : Option String := none
  salary : Option String := none
  job_type : Option String := none
  date_posted : Option String := none
  description_html : Option String := none
  description_text : Option String := none
deriving DecidableEq

/-- `extractFromBlocks(job, label)` from main.js: find the custom block
whose normalized lower-cased label or title matches, and return its
normalized value when truthy. -/
def extractFromBlocks (job : Job) (label : String) : Option String :=
  let blocks := job.customBlockList.getD (job.customBlocklist.getD [])
  let target := strToLower (normalizeSpace label)
  match blocks.find? (fun b =>
      (strToLower (normalizeSpace (b.label.getD "")) == target) ||
      (strToLower (normalizeSpace (b.title.getD "")) == target)) with
  | some b => if truthy b.value then some (normalizeSpace (b.value.getD "")) else none
  | none => none

/-- `extractClearance(job)` from main.js. -/
def extractClearance (job : Job) : Option String :=
  firstTruthy [extractFromBlocks job "Security Clearance",
    job.security_clearance, job.job_type]

/-- `extractJobType(job, detail, additional)` from main.js. -/
def extractJobType (job : Job) (detail additional : Detail) : Option String :=
  firstTruthy [detail.position_type, detail.positionType, detail.job_type,
    detail.employment_type,
    additional.position_type, additional.positionType, additional.job_type,
    additional.employment_type,
    job.position_type, job.positionType, job.job_type,
    extractFromBlocks job "Job Type"]

/-- The url computation of `mapApiJob` (main.js lines 409-413): the
rawUrl `||` chain, `new URL(rawUrl, BASE).href` (`.error` = the
constructor throws), and the `${BASE}/job/${id}` fallback. -/
def apiJobUrl (job : Job) (detail additional : Detail) :
    Except Unit (Option String) :=
  let rawUrl := firstTruthy [job.url, detail.url, additional.url,
    if truthy job.id then some (BASE ++ "/job/" ++ job.id.getD "") else none]
  let id := firstSome [job.id, detail.id, additional.id]
  match rawUrl with
  | some r =>
    match resolveUrl r with
    | none => .error ()
    | some u => .ok (some u)
  | none => .ok (if truthy id then some (BASE ++ "/job/" ++ id.getD "") else none)

/-- `mapApiJob(job, detail, additional, source)` from main.js.  `cf` is
the injected `cheerio.load(html).text()` text extractor.  `none` models
the function throwing: `new URL(rawUrl, BASE)` raises a `TypeError` on a
malformed truthy raw url, and this call sits in the `Promise.all`
callback of `collectFromApi` with no surrounding try/catch, so the
exception escapes the strategy. -/
def mapApiJob (cf : String → String) (job : Job) (detail additional : Detail)
    (source : String) : Option Item :=
  match apiJobUrl job detail additional with
  | .error _ => none
  | .ok url =>
  let id := firstSome [job.id, detail.id, additional.id]
  let descriptionHtml := firstTruthy [detail.description, detail.body,
    job.description, job.body, additional.description]
  let salary := firstTruthy [detail.salary, detail.salary_min, detail.salary_max,
    additional.salary, additional.salary_min, additional.salary_max,
    job.salary, job.salary_min, job.salary_max,
    extractFromBlocks job "Salary"]
  let clearance := firstTruthy [detail.security_clearance,
    additional.security_clearance, extractClearance job,
    job.job_type, job.security_clearance]
  some
    { source := source
      id := id
      url := url
      title := some (normalizeSpace ((firstTruthy [job.title, job.job_title]).getD ""))
      company := some (normalizeSpace ((firstTruthy [job.companyName, job.company]).getD ""))
      location := some (normalizeSpace ((firstTruthy [job.location, detail.location,
        additional.location, extractFromBlocks job "Location"]).getD ""))
      security_clearance := clearance
      salary := salary
      job_type := extractJobType job detail additional
      date_posted := firstTruthy [job.posted_date, job.modified_time, job.created_at]
      description_html := descriptionHtml
      description_text :=
        if truthy descriptionHtml then
          some (normalizeSpace (cf (descriptionHtml.getD "")))
        else if truthy job.shortDescription then
          some (normalizeSpace (job.shortDescription.getD ""))
        else none }

/-- A schema.org `JobPosting` object parsed out of a page's
`script[type=application/ld+json]` block (fields `mapJsonLdJob` reads).
`employmentTypeArr` models the case where `ld.employmentType` is an
array. -/
structure LdJob where
  url : Option String := none
  identifier : Option String := none
  title : Option String := none
  hiringOrgName : Option String := none
  addrLocality : Option String := none
  addrRegion : Option String := none
  securityClearanceRequirement : Option String := none
  baseSalaryValue : Option String := none
  baseSalaryCurrency : Option String := none
  employmentTypeArr : Option (List String) := none
  employmentType : Option String := none
  datePosted : Option String := none
  description : Option String := none
deriving DecidableEq

/-- The url computation of `mapJsonLdJob` (main.js line 468):
`ld.url ? new URL(ld.url, BASE).href : null`, `.error` = the constructor
throws. -/
def ldJobUrl (ld : LdJob) : Except Unit (Option String) :=
  if truthy ld.url then
    match resolveUrl (ld.url.getD "") with
    | none => .error ()
    | some u => .ok (some u)
  else .ok none

/-- `mapJsonLdJob(ld)` from main.js.  `none` models
`new URL(ld.url, BASE)` throwing on a malformed truthy `ld.url`; the
try/catch of `fetchJobPage` around its call site turns that into
`null`. -/
def mapJsonLdJob (cf : String → String) (ld : LdJob) : Option Item :=
  match ldJobUrl ld with
  | .error _ => none
  | .ok url =>
  some
    { source := "jsonld"
      id := firstTruthy [ld.identifier]
      url := url
      title := some (normalizeSpace (ld.title.getD ""))
      company := some (normalizeSpace (ld.hiringOrgName.getD ""))
      location := some (normalizeSpace
        (if truthy ld.addrLocality then
          jsTrim ((ld.addrLocality.getD "") ++ ", " ++ (ld.addrRegion.getD ""))
        else (ld.addrRegion.getD "")))
      security_clearance := firstTruthy [ld.securityClearanceRequirement]
      salary :=
        if truthy ld.baseSalaryValue && truthy ld.baseSalaryCurrency then
          some ((ld.baseSalaryValue.getD "") ++ " " ++ (ld.baseSalaryCurrency.getD ""))
        else none
      job_type :=
        match ld.employmentTypeArr with
        | some l => some (joinSep ", " l)
        | none => firstTruthy [ld.employmentType]
      date_posted := firstTruthy [ld.datePosted]
      description_html := firstTruthy [ld.description]
      description_text :=
        if truthy ld.description then
          some (normalizeSpace (cf (ld.description.getD "")))
        else none }

/-- Outcome of one HTTP attempt: a thrown transport error the code
catches, or a response with a status code and an already-parsed body. -/
inductive FetchOut (β : Type) where
  | thrown : FetchOut β
  | resp (status : Nat) (body : β) : FetchOut β
deriving DecidableEq

/-- Parsed body of a listing-endpoint response: optional `data` and
`jobs` arrays plus the `links.next` cursor. -/
structure PageJson where
  data : Option (List Job) := none
  jobs : Option (List Job) := none
  next : Option String := none
deriving DecidableEq

/-- `Array.isArray(json?.data) ? json.data : Array.isArray(json?.jobs) ?
json.jobs : []` from `collectFromApi`. -/
def dataOf (pj : PageJson) : List Job :=
  match pj.data with
  | some l => l
  | none => pj.jobs.getD []

/-- Result of the listing-page fetch loop: attempts actually issued, the
base backoff delays slept, and the parsed JSON (or `null`). -/
structure FetchRes where
  attempts : Nat
  delays : List Nat
  json : Option PageJson

/-- The `while (attempt < 3 && !json)` retry loop of `collectFromApi`
(main.js lines 611-648): a status `>= 500` sleeps `800*attempt + jitter`
and retries; a thrown transport error sleeps `500*attempt + jitter` and
retries while attempts remain; otherwise the body is JSON-parsed, a
non-object parse breaking out with `json = null`.  `f a` is the outcome
of attempt `a` (with parse already applied: `none` = non-JSON body),
`jit a` the jitter drawn on attempt `a`. -/
def pageFetchAux (f : Nat → FetchOut (Option PageJson)) (jit : Nat → Nat) :
    Nat → Nat → FetchRes
  | _, 0 => ⟨0, [], none⟩
  | attempt, r + 1 =>
    let a := attempt + 1
    match f a with
    | .thrown =>
      -- catch branch: sleep only while attempts remain
      if a < 3 then
        let p := pageFetchAux f jit a r
        ⟨p.attempts + 1, (500 * a + jit a) :: p.delays, p.json⟩
      else
        let p := pageFetchAux f jit a r
        ⟨p.attempts + 1, p.delays, p.json⟩
    | .resp st body =>
      if 500 ≤ st then
        let p := pageFetchAux f jit a r
        ⟨p.attempts + 1, (800 * a + jit a) :: p.delays, p.json⟩
      else
        match body with
        | none => ⟨1, [], none⟩      -- non-JSON / non-object: break
        | some pj => ⟨1, [], some pj⟩

/-- Listing-page fetch with the bound of 3 attempts. -/
def pageFetch (f : Nat → FetchOut (Option PageJson)) (jit : Nat → Nat) : FetchRes :=
  pageFetchAux f jit 0 3

/-- Result of the bootstrap search-page fetch (main.js lines 824-859). -/
structure BootRes where
  attempts : Nat
  delays : List Nat
  html : Option String

/-- The bootstrap `while (attempt < 3 && !searchPageHtml)` loop: a 403
sleeps `1000*attempt + jitter` and retries; any other status `>= 400`
throws, which the surrounding catch retries (with the same backoff) while
attempts remain; a thrown transport error is retried the same way.
`html = none` models the run aborting (`throw` after the loop). -/
def bootFetchAux (f : Nat → FetchOut String) (jit : Nat → Nat) :
    Nat → Nat → BootRes
  | _, 0 => ⟨0, [], none⟩
  | attempt, r + 1 =>
    let a := attempt + 1
    match f a with
    | .thrown =>
      if a < 3 then
        let p := bootFetchAux f jit a r
        ⟨p.attempts + 1, (1000 * a + jit a) :: p.delays, p.html⟩
      else ⟨1, [], none⟩  -- rethrow: run fails
    | .resp st body =>
      if st = 403 then
        let p := bootFetchAux f jit a r
        ⟨p.attempts + 1, (1000 * a + jit a) :: p.delays, p.html⟩
      else if 400 ≤ st then
        -- `throw new Error(...)` caught by the catch branch
        if a < 3 then
          let p := bootFetchAux f jit a r
          ⟨p.attempts + 1, (1000 * a + jit a) :: p.delays, p.html⟩
        else ⟨1, [], none⟩
      else ⟨1, [], some body⟩

/-- Bootstrap fetch with the bound of 3 attempts. -/
def bootFetch (f : Nat → FetchOut String) (jit : Nat → Nat) : BootRes :=
  bootFetchAux f jit 0 3

/-- Content of a job's canonical HTML page, pre-parsed: the first
JSON-LD `JobPosting` if any, else the DOM-heuristic fields
(`h1`, `.company,.employer`, `.location`, `main, .job-description`). -/
structure HtmlPage where
  ld : Option LdJob := none
  hTitle : String := ""
  hCompany : String := ""
  hLocation : String := ""
  hDescHtml : Option String := none

/-- `fetchJobPage(url)` from main.js (lines 496-536): a single request —
thrown errors and any status `>= 400` yield `null` (no retry); a JSON-LD
`JobPosting` maps through `mapJsonLdJob`; otherwise the DOM-heuristic
item is built. -/
def fetchJobPage (cf : String → String) (url : String)
    (r : FetchOut HtmlPage) : Option Item :=
  match r with
  | .thrown => none
  | .resp st page =>
    if 400 ≤ st then none
    else
      match page.ld with
      | some ld => mapJsonLdJob cf ld
      | none =>
        let descHtml := if truthy page.hDescHtml then page.hDescHtml else none
        some { source := "html"
               url := some url
               title := some (normalizeSpace page.hTitle)
               company := some (normalizeSpace page.hCompany)
               location := some (normalizeSpace page.hLocation)
               description_html := descHtml
               description_text :=
                 if truthy descHtml then
                   some (normalizeSpace (cf (descHtml.getD "")))
                 else none }

/-- External world of one run: per-request (and per-attempt, where the
code retries) responses.  Listing-page requests are indexed by the page
counter (the `page` search param); detail/additional sub-requests by the
job id; job-page and sitemap requests by URL. -/
structure Env where
  boot : Nat → FetchOut String
  jit : Nat → Nat
  page : Nat → Nat → FetchOut (Option PageJson)
  /-- `fetchDetails(job.id)`: its two sub-requests never propagate errors
  and yield `{}` bodies on failure, so they are folded into one function
  returning the `detail` and `additional` objects. -/
  details : Option String → Detail × Detail
  jobPage : String → FetchOut HtmlPage
  /-- Sitemap-index fetch (`throwHttpErrors` left at its default, so an
  HTTP error status throws): `.error` = thrown, `.ok` = the
  `<loc>...sitemap_...xml</loc>` matches of the body. -/
  smIndex : Except Unit (List String)
  /-- Child-sitemap fetch; body = the `<loc>` matches of the XML. -/
  smFetch : String → FetchOut (List String)

/-- Deterministic model of `JSON.stringify(item)` (always non-empty). -/
def serializeItem (i : Item) : String :=
  "item:" ++ (i.source ++ "|" ++ i.id.getD "-" ++ "|" ++ i.url.getD "-" ++ "|"
    ++ i.title.getD "-" ++ "|" ++ i.company.getD "-" ++ "|"
    ++ i.location.getD "-" ++ "|" ++ i.security_clearance.getD "-" ++ "|"
    ++ i.salary.getD "-" ++ "|" ++ i.job_type.getD "-" ++ "|"
    ++ i.date_posted.getD "-" ++ "|" ++ i.description_html.getD "-" ++ "|"
    ++ i.description_text.getD "-")

/-- `item.url || item.id || JSON.stringify(item)`: the dedup key of
`collectFromApi`'s push loop. -/
def keyOf (i : Item) : String :=
  match firstTruthy [i.url, i.id] with
  | some k => k
  | none => serializeItem i

/-- `seen.has(k)` on the list-modeled seen-set. -/
def seenHas (seen : List String) (k : String) : Bool := seen.contains k

/-- State of `collectFromApi` plus run-shared data: the saved count, the
page counter, the shared `seen` set, the dataset sink (a list, in push
order), the number of listing-page HTTP requests issued (retries
included), and whether the pagination loop has exited. -/
structure ApiState where
  saved : Nat := 0
  page : Nat := 1
  seen : List String := []
  sink : List Item := []
  fetches : Nat := 0
  halted : Bool := false
  /-- An exception (a `mapApiJob` `TypeError`) escaped the strategy:
  the `Promise.all` rejection aborts `collectFromApi`, its return value
  is never delivered, but records already pushed stay in the dataset
  and their keys stay in the shared seen-set. -/
  thrown : Bool := false
deriving DecidableEq

/-- The `for (const item of results)` push loop of `collectFromApi`
(main.js lines 702-711): stop at quota, skip empty or already-seen keys,
otherwise record the key and push. -/
def pushLoop (rw : Nat) : List Item → ApiState → ApiState
  | [], st => st
  | item :: rest, st =>
    if rw ≤ st.saved then st
    else
      let key := keyOf item
      if key == "" || seenHas st.seen key then pushLoop rw rest st
      else pushLoop rw rest { st with
        saved := st.saved + 1
        seen := key :: st.seen
        sink := st.sink ++ [item] }

/-- The condition (main.js lines 670-679) under which the item's
canonical HTML page is consulted for enrichment (besides the url/seen
guards): missing or short description, or a missing
job_type/clearance/location/salary. -/
def needsEnrich (i : Item) : Bool :=
  (!truthy i.description_html || (i.description_text.getD "").length < 500)
    || !truthy i.job_type || !truthy i.security_clearance
    || !truthy i.location || !truthy i.salary

/-- The merge of the HTML-page item into the API item (main.js lines
683-695): description html/text are replaced when absent or when the
page's text is longer; the other four fields only fill falsy slots. -/
def applyEnrich (item h : Item) : Item :=
  let existingLen := (item.description_text.getD "").length
  let htmlLen := (h.description_text.getD "").length
  let replaceDesc := !truthy item.description_html || existingLen < htmlLen
  { item with
    description_html :=
      if replaceDesc then jsOr h.description_html item.description_html
      else item.description_html
    description_text :=
      if replaceDesc then jsOr h.description_text item.description_text
      else item.description_text
    job_type := firstTruthy [item.job_type, h.job_type]
    location := firstTruthy [item.location, h.location]
    security_clearance := firstTruthy [item.security_clearance, h.security_clearance]
    salary := firstTruthy [item.salary, h.salary] }

/-- One element of a concurrency chunk: fetch detail/additional, resolve
fields, and conditionally enrich from the HTML page (the `seen` set is
read as of the chunk start; pushes happen only after the whole chunk).
`none` models the callback rejecting with `mapApiJob`'s `TypeError`
(`fetchJobPage` catches its own failures, so it never rejects). -/
def enrichItem (env : Env) (cf : String → String) (seen : List String)
    (job : Job) : Option Item :=
  let d := env.details job.id
  match mapApiJob cf job d.1 d.2 "api" with
  | none => none
  | some item =>
    some
      (if truthy item.url && !seenHas seen (item.url.getD "") && needsEnrich item then
        match fetchJobPage cf (item.url.getD "") (env.jobPage (item.url.getD "")) with
        | some h => applyEnrich item h
        | none => item
      else item)

/-- `Promise.all` over a chunk's callbacks: all their values, or a
rejection (`none`) when any callback threw. -/
def allSome : List (Option Item) → Option (List Item)
  | [] => some []
  | none :: _ => none
  | some i :: rest => (allSome rest).map (i :: ·)

/-- The `while (batch.length && saved < resultsWanted)` chunking loop of
`collectFromApi` (CONCURRENCY = 12), with a structural fuel argument:
every iteration splices off at least one job, so `batch.length`
iterations always suffice.  A rejected `Promise.all` (a `mapApiJob`
throw) aborts the strategy: none of that chunk's results are pushed and
the exception propagates (`thrown`). -/
def processBatchesAux (env : Env) (cf : String → String) (rw : Nat) :
    Nat → List Job → ApiState → ApiState
  | 0, _, st => st
  | _ + 1, [], st => st
  | fuel + 1, j :: rest, st =>
    if st.saved < rw then
      let chunk := (j :: rest).take 12
      let remaining := (j :: rest).drop 12
      match allSome (chunk.map (enrichItem env cf st.seen)) with
      | none => { st with thrown := true }
      | some results =>
        processBatchesAux env cf rw fuel remaining (pushLoop rw results st)
    else st

/-- The chunking loop, entered with its own batch as fuel. -/
def processBatches (env : Env) (cf : String → String) (rw : Nat)
    (batch : List Job) (st : ApiState) : ApiState :=
  processBatchesAux env cf rw batch.length batch st

/-- One iteration of the `while (saved < resultsWanted && page <=
maxPages)` pagination loop of `collectFromApi` (a no-op once the loop
has exited): fetch the listing page with retries, stop on non-JSON or an
empty job array, process the batch, and advance only on a truthy
`links.next`. -/
def apiStep (env : Env) (cf : String → String) (rw mp : Nat)
    (st : ApiState) : ApiState :=
  if st.halted then st
  else if st.saved < rw ∧ st.page ≤ mp then
    let fr := pageFetch (env.page st.page) env.jit
    let st1 := { st with fetches := st.fetches + fr.attempts }
    match fr.json with
    | none => { st1 with halted := true }
    | some pj =>
      if (dataOf pj).isEmpty then { st1 with halted := true }
      else
        let st2 := processBatches env cf rw (dataOf pj) st1
        if st2.thrown then { st2 with halted := true }
        else if truthy pj.next then { st2 with page := st2.page + 1 }
        else { st2 with halted := true }
  else { st with halted := true }

/-- The pagination loop iterated `k` times from the initial state. -/
def apiIter (env : Env) (cf : String → String) (rw mp : Nat) : Nat → ApiState
  | 0 => {}
  | k + 1 => apiStep env cf rw mp (apiIter env cf rw mp k)

/-- `collectFromApi`: each loop iteration either exits or advances the
page counter past `mp` eventually, so `mp + 1` iterations reach the
loop's exit. -/
def collectFromApiRun (env : Env) (cf : String → String) (rw mp : Nat) :
    ApiState :=
  apiIter env cf rw mp (mp + 1)

/-- State of `collectFromSitemaps` (its local `saved` plus the shared
seen set and sink). -/
structure SmState where
  saved : Nat := 0
  seen : List String := []
  sink : List Item := []
deriving DecidableEq

/-- Substring occurrence over character lists. -/
def containsSub (pat : List Char) : List Char → Bool
  | [] => pat.isEmpty
  | c :: rest => pat.isPrefixOf (c :: rest) || containsSub pat rest

/-- `String.prototype.includes` (kernel-reducible). -/
def jsIncludes (s pat : String) : Bool := containsSub pat.data s.data

/-- The candidate-URL gathering loop of `collectFromSitemaps` (main.js
lines 745-765): stop once `resultsWanted * 2` URLs are collected, skip
thrown or `>= 400` child-sitemap fetches, and take at most
`resultsWanted` locs from each sitemap. -/
def gatherUrls (env : Env) (rw : Nat) : List String → List String → List String
  | [], acc => acc
  | sm :: rest, acc =>
    if rw * 2 ≤ acc.length then acc
    else
      match env.smFetch sm with
      | .thrown => gatherUrls env rw rest acc
      | .resp st locs =>
        if 400 ≤ st then gatherUrls env rw rest acc
        else gatherUrls env rw rest (acc ++ locs.take rw)

/-- The `for (const url of urls)` loop of `collectFromSitemaps` (main.js
lines 768-780): stop at quota, skip fetched URLs already in `seen` and
failed page fetches, else push the parsed item and record the fetched
URL. -/
def smLoop (env : Env) (cf : String → String) (rw : Nat) :
    List String → SmState → SmState
  | [], st => st
  | url :: rest, st =>
    if rw ≤ st.saved then st
    else if seenHas st.seen url then smLoop env cf rw rest st
    else
      match fetchJobPage cf url (env.jobPage url) with
      | none => smLoop env cf rw rest st
      | some item => smLoop env cf rw rest
          ⟨st.saved + 1, url :: st.seen, st.sink ++ [item]⟩

/-- `collectFromSitemaps(resultsWanted, seen, dataset)`: index fetch
(failure returns 0 saved), filter for `sitemap_active_jobs`, gather
candidate URLs, then the push loop. -/
def smRun (env : Env) (cf : String → String) (rw : Nat)
    (seen : List String) (sink : List Item) : SmState :=
  match env.smIndex with
  | .error _ => ⟨0, seen, sink⟩
  | .ok locs =>
    let jobSms := locs.filter (fun u => jsIncludes u "sitemap_active_jobs")
    if jobSms.isEmpty then ⟨0, seen, sink⟩
    else smLoop env cf rw (gatherUrls env rw jobSms []) ⟨0, seen, sink⟩

/-- The count the orchestrator adds to `totalSaved` for the API strategy:
the strategy's return value, or 0 when it threw (the `+=` in the `try`
never ran and the catch only logs). -/
def recordedSaved : Except Unit Nat → Nat
  | .ok n => n
  | .error _ => 0

/-- Orchestrator outcome: whether the sitemap fallback ran, the quota it
received, and the reported total. -/
structure OrchResult where
  smInvoked : Bool
  smQuota : Nat
  total : Nat
deriving DecidableEq

/-- The strategy-sequencing skeleton of `Actor.main` (main.js lines
877-906), abstracted over the API strategy's outcome (`.error` = it
threw and was caught) and the sitemap strategy's saved-count function. -/
def orchestrateWith (rw : Nat) (apiOutcome : Except Unit Nat)
    (smSaved : Nat → Nat) : OrchResult :=
  let t := recordedSaved apiOutcome
  if t < rw then ⟨true, rw - t, t + smSaved (rw - t)⟩
  else ⟨false, 0, t⟩

/-- Final observable state of one run. -/
structure RunResult where
  sink : List Item
  seen : List String
  totalSaved : Nat
  smInvoked : Bool
  smQuota : Nat
  bootOk : Bool
deriving DecidableEq

/-- The API strategy's outcome as the orchestrator's `try` sees it:
its saved count when it returned, or the caught exception when a
`mapApiJob` throw escaped (`totalSaved +=` never ran). -/
def apiOutcome (env : Env) (cf : String → String) (rw mp : Nat) :
    Except Unit Nat :=
  if (collectFromApiRun env cf rw mp).thrown then .error ()
  else .ok (collectFromApiRun env cf rw mp).saved

/-- `Actor.main`: bootstrap fetch (its failure aborts the run with
nothing persisted), then `collectFromApi` with the full quota inside a
log-only try/catch — a throw leaves `totalSaved` at 0 although the
strategy's pushes stay in the shared dataset and seen-set — then, only
if the recorded total is below the quota, `collectFromSitemaps` with
the remaining quota computed from that recorded total. -/
def runPipeline (env : Env) (cf : String → String) (rw mp : Nat) : RunResult :=
  match (bootFetch env.boot env.jit).html with
  | none => ⟨[], [], 0, false, 0, false⟩
  | some _ =>
    let a := collectFromApiRun env cf rw mp
    let recorded := recordedSaved (apiOutcome env cf rw mp)
    if recorded < rw then
      let s := smRun env cf (rw - recorded) a.seen a.sink
      ⟨s.sink, s.seen, recorded + s.saved, true, rw - recorded, true⟩
    else ⟨a.sink, a.seen, recorded, false, 0, true⟩


/-! ### Claim-specific definitions: concrete text extractor, identity
keys, normalized-field predicate, and mocked environments. -/

/-- Concrete stand-in for `cheerio.load(html).text()` used in concrete
runs: pages in the mocked environments carry tag-free description
bodies, for which the text extraction is the identity. -/
def cf0 : String → String := id

/-- The spec's resolved identity key of a record: `url` when present,
otherwise `id`. -/
def resolvedKey (i : Item) : Option String :=
  match i.url with
  | some u => some u
  | none => i.id

/-- A string-or-null field is normalized when any present value passes
`wsNormalized`. -/
def optNorm (o : Option String) : Prop :=
  ∀ t, o = some t → wsNormalized t = true

/-- The fields of a record that the pipeline always whitespace-normalizes
before persistence. -/
def goodFields (i : Item) : Prop :=
  optNorm i.title ∧ optNorm i.company ∧ optNorm i.location ∧
    optNorm i.description_text

/-- Invariant carried by the API strategy's state: saved-count bounded by
the quota and equal to the records pushed, the seen-set exactly the
pushed keys (newest first) with no duplicates, and every pushed record
satisfying `P`. -/
def ainv (rw : Nat) (P : Item → Prop) (st : ApiState) : Prop :=
  st.saved ≤ rw ∧ st.saved = st.sink.length ∧
    st.seen = (st.sink.map keyOf).reverse ∧ st.seen.Nodup ∧
    ∀ i ∈ st.sink, P i

/-- Invariant carried by the sitemap strategy's state relative to the
sink/seen sizes `A`/`B` it started from. -/
def sinv (rw A B : Nat) (P : Item → Prop) (st : SmState) : Prop :=
  st.saved ≤ rw ∧ st.sink.length = A + st.saved ∧
    st.seen.length = B + st.saved ∧ st.seen.Nodup ∧
    ∀ i ∈ st.sink, P i

/-- Mocked run for C8: one API job whose `detail.security_clearance`
carries raw whitespace; enrichment page unavailable; no sitemaps. -/
def envC8 : Env where
  boot := fun _ => .resp 200 "page"
  jit := fun _ => 100
  page := fun p a =>
    if p = 1 && a = 1 then
      .resp 200 (some { data := some [{ id := some "1", url := some "https://clearedjobs.net/job/a" }] })
    else .resp 200 none
  details := fun i =>
    if i = some "1" then ({ security_clearance := some " A  B " }, {})
    else ({}, {})
  jobPage := fun _ => .resp 500 {}
  smIndex := .error ()
  smFetch := fun _ => .thrown

/-- Mocked run for C9: the API listing is non-JSON, and the single
sitemap job page carries a JSON-LD posting with neither `identifier` nor
`url`. -/
def envC9 : Env where
  boot := fun _ => .resp 200 "page"
  jit := fun _ => 0
  page := fun _ _ => .resp 200 none
  details := fun _ => ({}, {})
  jobPage := fun _ => .resp 200 { ld := some { title := some "X" } }
  smIndex := .ok ["https://clearedjobs.net/sitemap_active_jobs_1.xml"]
  smFetch := fun _ => .resp 200 ["https://clearedjobs.net/job/z"]

/-- The record `envC9` persists. -/
def itemC9 : Item :=
  { source := "jsonld", title := some "X", company := some "",
    location := some "" }

/-- Mocked run for C2: the API saves `/job/a`; the sitemap then fetches
`/job/b`, whose JSON-LD canonical url is `/job/a` — same resolved key,
fetched under a different URL. -/
def envC2 : Env where
  boot := fun _ => .resp 200 "page"
  jit := fun _ => 0
  page := fun p a =>
    if p = 1 && a = 1 then
      .resp 200 (some { data := some [{ id := some "1", url := some "https://clearedjobs.net/job/a" }] })
    else .resp 200 none
  details := fun _ => ({}, {})
  jobPage := fun u =>
    if u = "https://clearedjobs.net/job/b" then
      .resp 200 { ld := some { url := some "https://clearedjobs.net/job/a", title := some "Y" } }
    else .resp 500 {}
  smIndex := .ok ["https://clearedjobs.net/sitemap_active_jobs_1.xml"]
  smFetch := fun _ => .resp 200 ["https://clearedjobs.net/job/b"]

/-- Listing job and detail used by the C7 counterexample. -/
def jobC7 : Job := { id := some "1", url := some "https://clearedjobs.net/job/a" }

/-- Detail fragment with a short (but present) description. -/
def detailC7 : Detail := { description := some "short" }

/-- Mocked environment for C7: the enrichment page carries a longer
description than the API-resolved one. -/
def envC7 : Env where
  boot := fun _ => .resp 200 "page"
  jit := fun _ => 0
  page := fun _ _ => .resp 200 none
  details := fun i => if i = some "1" then (detailC7, {}) else ({}, {})
  jobPage := fun _ => .resp 200 { hDescHtml := some "a longer description text" }
  smIndex := .error ()
  smFetch := fun _ => .thrown

/-- Two-page listing source for the C6 witness: page 1 links to page 2,
page 2 has no next link; one job per page; enrichment pages unavailable. -/
def envC6 : Env where
  boot := fun _ => .resp 200 "page"
  jit := fun _ => 0
  page := fun p a =>
    if a = 1 then
      if p = 1 then
        .resp 200 (some { data := some [{ id := some "1" }], next := some "https://clearedjobs.net/api/v1/jobs?page=2" })
      else if p = 2 then
        .resp 200 (some { data := some [{ id := some "2" }] })
      else .resp 200 none
    else .resp 200 none
  details := fun _ => ({}, {})
  jobPage := fun _ => .resp 500 {}
  smIndex := .error ()
  smFetch := fun _ => .thrown

/-- The page objects served by `envC6`. -/
def pjC6 : Nat → PageJson
  | 1 => { data := some [{ id := some "1" }], next := some "https://clearedjobs.net/api/v1/jobs?page=2" }
  | 2 => { data := some [{ id := some "2" }] }
  | _ => {}

/-- Mocked run for C1: page 1 serves one good job (pushed), page 2
serves a job whose `url` `"http://"` makes `new URL` throw, aborting the
API strategy after its first push; the sitemap fallback then receives
the full quota and pushes two more records. -/
def envC1 : Env where
  boot := fun _ => .resp 200 "page"
  jit := fun _ => 0
  page := fun p a =>
    if a = 1 then
      if p = 1 then
        .resp 200 (some { data := some [{ id := some "1", url := some "https://clearedjobs.net/job/a" }], next := some "https://clearedjobs.net/api/v1/jobs?page=2" })
      else if p = 2 then
        .resp 200 (some { data := some [{ url := some "http://" }] })
      else .resp 200 none
    else .resp 200 none
  details := fun _ => ({}, {})
  jobPage := fun u =>
    if u = "https://clearedjobs.net/job/a" then .resp 500 {} else .resp 200 {}
  smIndex := .ok ["https://clearedjobs.net/sitemap_active_jobs_1.xml"]
  smFetch := fun _ => .resp 200 ["https://clearedjobs.net/job/c", "https://clearedjobs.net/job/d"]

/-! ### Theorems -/

theorem wsTail_cons_of_not_ws {c : Char} (hc : isWs c = false) (l : List Char)
    (hl : wsTail l = true) : wsTail (c :: l) = true := by
  cases l with
  | nil => simp [wsTail, hc]
  | cons d rest => simp [wsTail, hc] at hl ⊢; exact hl

theorem nsGo_wsTail (l : List Char) :
    wsTail (nsGo 1 l) = true ∧ wsTail (nsGo 2 l) = true := by
  induction l with
  | nil => exact ⟨rfl, rfl⟩
  | cons c cs ih =>
    by_cases hc : isWs c = true
    · constructor
      · simp only [nsGo, hc, if_pos]
        exact ih.2
      · simp only [nsGo, hc, if_pos]
        exact ih.2
    · replace hc : isWs c = false := by
        cases h : isWs c with
        | false => rfl
        | true => exact absurd h hc
      constructor
      · simp only [nsGo, hc]
        exact wsTail_cons_of_not_ws hc _ ih.1
      · simp only [nsGo, hc]
        simp only [Bool.false_eq_true, if_false, wsTail, hc, Bool.and_false,
          Bool.not_false, Bool.true_and]
        exact wsTail_cons_of_not_ws hc _ ih.1

/-- The normalizer's output has no leading/trailing whitespace and no
whitespace runs. -/
theorem normalizeSpace_wsNormalized (s : String) :
    wsNormalized (normalizeSpace s) = true := by
  show wsNormalized ⟨nsGo 0 s.data⟩ = true
  induction s.data with
  | nil => rfl
  | cons c cs ih =>
    by_cases hc : isWs c = true
    · simpa [nsGo, hc] using ih
    · replace hc : isWs c = false := by
        cases h : isWs c with
        | false => rfl
        | true => exact absurd h hc
      simp only [wsNormalized, normalizeSpace, nsGo, hc, if_neg, Bool.false_eq_true,
        not_false_iff, if_false]
      simp only [hc, Bool.not_false, Bool.true_and]
      exact wsTail_cons_of_not_ws hc _ (nsGo_wsTail cs).1

/-- If a `||` chain yields a value, that value is truthy (non-empty). -/
theorem firstTruthy_ne_empty {l : List (Option String)} {k : String}
    (h : firstTruthy l = some k) : k ≠ "" := by
  induction l with
  | nil => simp [firstTruthy] at h
  | cons o rest ih =>
    by_cases ho : truthy o = true
    · rw [firstTruthy, if_pos ho] at h
      subst h
      simpa [truthy] using ho
    · rw [firstTruthy, if_neg ho] at h
      exact ih h

/-- A value produced by a `||` chain is one of the chain's operands. -/
theorem firstTruthy_mem {l : List (Option String)} {k : String}
    (h : firstTruthy l = some k) : some k ∈ l := by
  induction l with
  | nil => simp [firstTruthy] at h
  | cons o rest ih =>
    by_cases ho : truthy o = true
    · rw [firstTruthy, if_pos ho] at h
      exact h ▸ List.mem_cons_self o rest
    · rw [firstTruthy, if_neg ho] at h
      exact List.mem_cons_of_mem o (ih h)

/-- C3 counterexample: with `detail.location = "A"` and
`listing.location = "B"`, the resolver returns `"B"` (the listing
fragment), not `"A"` as the claim states — `job.location` is consulted
before `detail.location` (main.js lines 447-453). -/
theorem c3_counterexample :
    (mapApiJob cf0 { location := some "B" } { location := some "A" } {} "api").map
        (fun i => i.location) = some (some "B")
      ∧ (some "B" : Option String) ≠ some "A" := by
  constructor
  · rfl
  · decide

/-- C3 amended: the field resolver consults the listing fragment first
for `location`; whenever the listing carries a non-empty location, the
resolved location is the (normalized) listing value, regardless of the
detail fragment. -/
theorem c3_location_listing_first (cf : String → String) (job : Job)
    (detail additional : Detail) (s l : String) (item : Item)
    (h : job.location = some l) (hl : l ≠ "")
    (hm : mapApiJob cf job detail additional s = some item) :
    item.location = some (normalizeSpace l) := by
  have ht : truthy (some l) = true := by simp [truthy, hl]
  unfold mapApiJob at hm
  cases hu : apiJobUrl job detail additional with
  | error e => rw [hu] at hm; exact Option.noConfusion hm
  | ok url =>
    rw [hu] at hm
    rw [← Option.some_inj.1 hm]
    simp [firstTruthy, h, ht]

/-- Witness for `c3_location_listing_first` at `location = "B"`. -/
theorem c3_location_listing_first_witness :
    ((mapApiJob cf0 { location := some "B" } { location := some "A" } {} "api").getD
        {}).location = some (normalizeSpace "B") :=
  c3_location_listing_first cf0 { location := some "B" } { location := some "A" }
    {} "api" "B" _ rfl (by decide) rfl

/-- C10 counterexample: a listing with `job_type = ""` (non-null) and no
clearance data resolves `security_clearance` to `null`, not to the
job_type value — JS `||` skips the falsy empty string. -/
theorem c10_counterexample :
    (mapApiJob cf0 { job_type := some "" } {} {} "api").map
        (fun i => i.security_clearance) = some none
      ∧ (some "" : Option String) ≠ none := by
  constructor
  · rfl
  · decide

/-- C10 amended: with no Security Clearance custom block and no
`security_clearance` field in the listing, detail, or additional views,
a non-empty listing `job_type` becomes the resolved
`security_clearance` (the job-type fallback in `extractClearance`). -/
theorem c10_clearance_falls_back_to_job_type (cf : String → String) (job : Job)
    (detail additional : Detail) (s t : String)
    (hb : extractFromBlocks job "Security Clearance" = none)
    (h1 : job.security_clearance = none)
    (h2 : detail.security_clearance = none)
    (h3 : additional.security_clearance = none)
    (ht : job.job_type = some t) (hne : t ≠ "") (item : Item)
    (hm : mapApiJob cf job detail additional s = some item) :
    item.security_clearance = some t := by
  have htr : truthy (some t) = true := by simp [truthy, hne]
  unfold mapApiJob at hm
  cases hu : apiJobUrl job detail additional with
  | error e => rw [hu] at hm; exact Option.noConfusion hm
  | ok url =>
    rw [hu] at hm
    rw [← Option.some_inj.1 hm]
    simp [extractClearance, firstTruthy, hb, h1, h2, h3, ht, htr, truthy, hne]

/-- Witness for `c10_clearance_falls_back_to_job_type` at
`job_type = "Full-Time"`. -/
theorem c10_clearance_falls_back_to_job_type_witness :
    ((mapApiJob cf0 { job_type := some "Full-Time" } {} {} "api").getD
        {}).security_clearance = some "Full-Time" :=
  c10_clearance_falls_back_to_job_type cf0 { job_type := some "Full-Time" } {} {}
    "api" "Full-Time" rfl rfl rfl rfl rfl (by decide) _ rfl

/-- C7 counterexample: the API-resolved record has a non-null
`description_html` (`"short"`), yet after the enrichment page is
consulted (it is, because the description is shorter than 500 chars) the
field is replaced by the page's longer description — enrichment does not
only fill gaps (main.js lines 685-689). -/
theorem c7_counterexample :
    (mapApiJob cf0 jobC7 detailC7 {} "api").map (fun i => i.description_html)
        = some (some "short") ∧
    (enrichItem envC7 cf0 [] jobC7).map (fun i => i.description_html)
        = some (some "a longer description text") := by
  constructor
  · rfl
  · rfl

/-- C7 amended: enrichment fills gaps for `job_type`, `location`,
`security_clearance` and `salary` (truthy values are kept), but the
description fields are kept only when the page's description text is not
longer than the existing one; otherwise they are overwritten. -/
theorem c7_enrich_gap_fill (item hp : Item)
    (h1 : truthy item.job_type = true) (h2 : truthy item.location = true)
    (h3 : truthy item.security_clearance = true)
    (h4 : truthy item.salary = true)
    (h5 : truthy item.description_html = true)
    (h6 : (hp.description_text.getD "").length ≤ (item.description_text.getD "").length) :
    (applyEnrich item hp).job_type = item.job_type ∧
    (applyEnrich item hp).location = item.location ∧
    (applyEnrich item hp).security_clearance = item.security_clearance ∧
    (applyEnrich item hp).salary = item.salary ∧
    (applyEnrich item hp).description_html = item.description_html ∧
    (applyEnrich item hp).description_text = item.description_text := by
  have hlt : ¬ (item.description_text.getD "").length < (hp.description_text.getD "").length :=
    Nat.not_lt.2 h6
  simp [applyEnrich, firstTruthy, h1, h2, h3, h4, h5, hlt]

/-- Witness for `c7_enrich_gap_fill` on a fully-populated record and an
enrichment page with a shorter description. -/
theorem c7_enrich_gap_fill_witness :
    (applyEnrich
      { job_type := some "FT", location := some "L", security_clearance := some "TS",
        salary := some "1", description_html := some "<p>longer text</p>",
        description_text := some "longer text" }
      { description_text := some "short" }).description_html
      = some "<p>longer text</p>" :=
  (c7_enrich_gap_fill
      { job_type := some "FT", location := some "L", security_clearance := some "TS",
        salary := some "1", description_html := some "<p>longer text</p>",
        description_text := some "longer text" }
      { description_text := some "short" }
      (by decide) (by decide) (by decide) (by decide) (by decide) (by decide)).2.2.2.2.1

/-- C4: the sitemap fallback runs if and only if the count the
orchestrator recorded for the API strategy (its return value, or 0 when
it threw — the catch only logs, so the run continues) is below
`results_wanted`, and it then receives exactly the remaining quota.
Stated both for the abstract orchestrator skeleton (which covers the
caught-throw case) and for the concrete pipeline. -/
theorem c4_fallback_iff_and_remaining_quota :
    (∀ (rw : Nat) (o : Except Unit Nat) (sm : Nat → Nat),
      ((orchestrateWith rw o sm).smInvoked = true ↔ recordedSaved o < rw) ∧
      (recordedSaved o < rw →
        (orchestrateWith rw o sm).smQuota = rw - recordedSaved o) ∧
      recordedSaved (Except.error ()) = 0) ∧
    (∀ (env : Env) (cf : String → String) (rw mp : Nat),
      ((runPipeline env cf rw mp).bootOk = true →
        (((runPipeline env cf rw mp).smInvoked = true ↔
            recordedSaved (apiOutcome env cf rw mp) < rw) ∧
          (recordedSaved (apiOutcome env cf rw mp) < rw →
            (runPipeline env cf rw mp).smQuota
              = rw - recordedSaved (apiOutcome env cf rw mp))))) := by
  constructor
  · intro rw o sm
    refine ⟨?_, ?_, rfl⟩
    · by_cases h : recordedSaved o < rw <;> simp [orchestrateWith, h]
    · intro h
      simp [orchestrateWith, h]
  · intro env cf rw mp
    unfold runPipeline
    cases (bootFetch env.boot env.jit).html with
    | none => intro h; simp at h
    | some html =>
      intro _
      by_cases h : recordedSaved (apiOutcome env cf rw mp) < rw
      · simp [h]
      · simp [h]

/-- Witness for `c4_fallback_iff_and_remaining_quota`: an API outcome of
2 with quota 5 invokes the sitemap strategy with remaining quota 3, and
on the concrete `envC9` run (API saves 0 of 1) the fallback runs with
quota 1. -/
theorem c4_fallback_iff_and_remaining_quota_witness :
    (orchestrateWith 5 (Except.ok 2) (fun q => q)).smQuota = 3 ∧
    (runPipeline envC9 cf0 1 1).smInvoked = true := by
  constructor
  · have h := (c4_fallback_iff_and_remaining_quota.1 5 (Except.ok 2) (fun q => q)).2.1
      (by decide)
    simpa using h
  · have h := ((c4_fallback_iff_and_remaining_quota.2 envC9 cf0 1 1) (by decide)).1
    exact h.2 (by decide)

/-- C5 counterexample: the bootstrap fetch retries a 403 response — a
status in 400-499 — up to the full attempt bound (3 requests issued),
and `fetchJobPage` treats a 500 response as terminal without any retry;
both contradict the claimed uniform policy. -/
theorem c5_counterexample :
    (bootFetch (fun _ => .resp 403 "") (fun _ => 0)).attempts = 3 ∧
    1 < (bootFetch (fun _ => .resp 403 "") (fun _ => 0)).attempts ∧
    fetchJobPage cf0 "https://clearedjobs.net/job/a" (.resp 500 {}) = none := by
  refine ⟨rfl, ?_, rfl⟩
  decide

/-- C5 amended, per fetch site: (1) the API listing fetch does not retry
a 4xx response (one attempt; the body is then JSON-parsed like a
success); (2) it retries 5xx responses up to 3 attempts with backoff
`800 * attempt + jitter`; (3) the bootstrap fetch retries a 403 — a 4xx
— to the full bound; (4) `fetchJobPage` treats any 5xx as terminal with
its single attempt. -/
theorem c5_retry_policy_per_site :
    (∀ (f : Nat → FetchOut (Option PageJson)) (jit : Nat → Nat)
       (st : Nat) (body : Option PageJson),
      400 ≤ st → st < 500 → f 1 = .resp st body →
        (pageFetch f jit).attempts = 1) ∧
    (∀ (f : Nat → FetchOut (Option PageJson)) (jit stf : Nat → Nat)
       (bf : Nat → Option PageJson),
      (∀ a, f a = .resp (stf a) (bf a)) → (∀ a, 500 ≤ stf a) →
        pageFetch f jit
          = ⟨3, [800 * 1 + jit 1, 800 * 2 + jit 2, 800 * 3 + jit 3], none⟩) ∧
    (∀ (f : Nat → FetchOut String) (jit : Nat → Nat) (bf : Nat → String),
      (∀ a, f a = .resp 403 (bf a)) →
        (bootFetch f jit).attempts = 3 ∧ (bootFetch f jit).html = none) ∧
    (∀ (cf : String → String) (u : String) (st : Nat) (page : HtmlPage),
      500 ≤ st → fetchJobPage cf u (.resp st page) = none) := by
  refine ⟨?_, ?_, ?_, ?_⟩
  · intro f jit st body h4 h5 hf
    have hn : ¬ 500 ≤ st := Nat.not_le.2 h5
    cases body <;> simp [pageFetch, pageFetchAux, hf, hn]
  · intro f jit stf bf hf hst
    have h1 := hf 1
    have h2 := hf 2
    have h3 := hf 3
    simp [pageFetch, pageFetchAux, h1, h2, h3, hst 1, hst 2, hst 3]
  · intro f jit bf hf
    constructor <;>
      simp [bootFetch, bootFetchAux, hf 1, hf 2, hf 3]
  · intro cf u st page h
    have h4 : 400 ≤ st := le_trans (by norm_num) h
    simp [fetchJobPage, h4]

/-- Witness for `c5_retry_policy_per_site` at concrete fetch outcomes:
a 404 listing response costs one attempt; an all-503 listing source is
retried 3 times with delays 807/1614/2421 at constant jitter 7; an
all-403 bootstrap source is fetched 3 times and fails; a 500 job page is
`null`. -/
theorem c5_retry_policy_per_site_witness :
    (pageFetch (fun _ => .resp 404 none) (fun _ => 0)).attempts = 1 ∧
    pageFetch (fun _ => .resp 503 none) (fun _ => 7) = ⟨3, [807, 1607, 2407], none⟩ ∧
    ((bootFetch (fun _ => .resp 403 "x") (fun _ => 0)).attempts = 3 ∧
      (bootFetch (fun _ => .resp 403 "x") (fun _ => 0)).html = none) ∧
    fetchJobPage cf0 "u" (.resp 500 {}) = none := by
  refine ⟨?_, ?_, ?_, ?_⟩
  · exact c5_retry_policy_per_site.1 (fun _ => .resp 404 none) (fun _ => 0) 404 none
      (by decide) (by decide) rfl
  · have h := c5_retry_policy_per_site.2.1 (fun _ => .resp 503 none) (fun _ => 7)
      (fun _ => 503) (fun _ => none) (fun _ => rfl) (fun _ => Nat.le.intro (k := 3) rfl)
    simpa using h
  · exact c5_retry_policy_per_site.2.2.1 (fun _ => .resp 403 "x") (fun _ => 0)
      (fun _ => "x") (fun _ => rfl)
  · exact c5_retry_policy_per_site.2.2.2 cf0 "u" 500 {} (by decide)

/-- C8 counterexample: a persisted record whose `security_clearance`
came raw from `detail.security_clearance` and still carries leading
whitespace and a whitespace run — `mapApiJob` normalizes only
title/company/location/description_text (main.js lines 433-455). -/
theorem c8_counterexample :
    (runPipeline envC8 cf0 1 1).sink.map (fun i => i.security_clearance)
        = [some " A  B "] ∧
      wsNormalized " A  B " = false := by
  constructor
  · rfl
  · rfl

/-- C9 counterexample: a sitemap-fetched page whose JSON-LD posting has
neither `identifier` nor `url` is persisted with both `id` and `url`
null — `collectFromSitemaps` performs no such check, and the API push
loop's `!key` guard never fires because `JSON.stringify(item)` is always
truthy. -/
theorem c9_counterexample :
    (runPipeline envC9 cf0 1 1).sink.map (fun i => (i.id, i.url)) = [(none, none)]
      ∧ (runPipeline envC9 cf0 1 1).totalSaved = 1 := by
  constructor
  · rfl
  · rfl

/-- C2 counterexample: the API strategy persists the record with resolved
key `/job/a`; the sitemap strategy then fetches `/job/b`, whose JSON-LD
canonical url is `/job/a`, and — deduping only on the *fetched* URL
(main.js lines 770, 775) — pushes a second record with the same resolved
identity key. -/
theorem c2_counterexample :
    (runPipeline envC2 cf0 2 1).sink.map resolvedKey
        = [some "https://clearedjobs.net/job/a", some "https://clearedjobs.net/job/a"]
      ∧ (runPipeline envC2 cf0 2 1).sink.length = 2 := by
  constructor
  · rfl
  · rfl

/-- The push loop does not touch the page counter, the fetch count, or
the loop-exit flag. -/
theorem pushLoop_frame (rw : Nat) (l : List Item) (st : ApiState) :
    (pushLoop rw l st).page = st.page ∧ (pushLoop rw l st).fetches = st.fetches ∧
      (pushLoop rw l st).halted = st.halted := by
  induction l generalizing st with
  | nil => exact ⟨rfl, rfl, rfl⟩
  | cons item rest ih =>
    by_cases h1 : rw ≤ st.saved
    · simp [pushLoop, h1]
    · by_cases h2 : (keyOf item == "" || seenHas st.seen (keyOf item)) = true
      · simpa [pushLoop, h1, h2] using ih st
      · simpa [pushLoop, h1, h2] using ih { st with saved := st.saved + 1, seen := keyOf item :: st.seen, sink := st.sink ++ [item] }

/-- The chunking loop does not touch page counter, fetch count, or exit
flag. -/
theorem processBatchesAux_frame (env : Env) (cf : String → String) (rw : Nat)
    (fuel : Nat) (l : List Job) (st : ApiState) :
    (processBatchesAux env cf rw fuel l st).page = st.page ∧
      (processBatchesAux env cf rw fuel l st).fetches = st.fetches ∧
      (processBatchesAux env cf rw fuel l st).halted = st.halted := by
  induction fuel generalizing l st with
  | zero => exact ⟨rfl, rfl, rfl⟩
  | succ fuel ih =>
    cases l with
    | nil => exact ⟨rfl, rfl, rfl⟩
    | cons j rest =>
      by_cases h : st.saved < rw
      · simp only [processBatchesAux, h, if_pos]
        cases hm : allSome (((j :: rest).take 12).map (enrichItem env cf st.seen)) with
        | none => simp [hm]
        | some results =>
          simp only [hm]
          have hp := pushLoop_frame rw results st
          have hi := ih ((j :: rest).drop 12) (pushLoop rw results st)
          exact ⟨hi.1.trans hp.1, hi.2.1.trans hp.2.1, hi.2.2.trans hp.2.2⟩
      · simp [processBatchesAux, h]

/-- `processBatches` frame lemma. -/
theorem processBatches_frame (env : Env) (cf : String → String) (rw : Nat)
    (l : List Job) (st : ApiState) :
    (processBatches env cf rw l st).page = st.page ∧
      (processBatches env cf rw l st).fetches = st.fetches ∧
      (processBatches env cf rw l st).halted = st.halted :=
  processBatchesAux_frame env cf rw l.length l st

/-- A first-attempt success of the listing fetch costs exactly one
request and no backoff. -/
theorem pageFetch_first_success (f : Nat → FetchOut (Option PageJson))
    (jit : Nat → Nat) (st : Nat) (pj : PageJson)
    (hf : f 1 = .resp st (some pj)) (hs : st < 500) :
    pageFetch f jit = ⟨1, [], some pj⟩ := by
  simp [pageFetch, pageFetchAux, hf, Nat.not_le.2 hs]

/-- Once the pagination loop has exited, further iterations do nothing. -/
theorem apiStep_of_halted (env : Env) (cf : String → String) (rw mp : Nat)
    (st : ApiState) (h : st.halted = true) : apiStep env cf rw mp st = st := by
  simp [apiStep, h]

/-- Characterization of one pagination step whose listing fetch
succeeded with a non-empty batch. -/
theorem apiStep_run (env : Env) (cf : String → String) (rw mp : Nat)
    (st : ApiState) (pj : PageJson)
    (hh : st.halted = false) (hs : st.saved < rw) (hp : st.page ≤ mp)
    (hf : pageFetch (env.page st.page) env.jit = ⟨1, [], some pj⟩)
    (hd : (dataOf pj).isEmpty = false) :
    apiStep env cf rw mp st =
      (if (processBatches env cf rw (dataOf pj) { st with fetches := st.fetches + 1 }).thrown then
        { processBatches env cf rw (dataOf pj) { st with fetches := st.fetches + 1 } with
          halted := true }
      else if truthy pj.next then
        { processBatches env cf rw (dataOf pj) { st with fetches := st.fetches + 1 } with
          page := (processBatches env cf rw (dataOf pj) { st with fetches := st.fetches + 1 }).page + 1 }
      else
        { processBatches env cf rw (dataOf pj) { st with fetches := st.fetches + 1 } with
          halted := true }) := by
  simp [apiStep, hh, hs, hp, hf, hd, processBatches]

/-- The pagination loop's state is stable after exit. -/
theorem apiIter_halted_stable (env : Env) (cf : String → String) (rw mp k : Nat)
    (h : (apiIter env cf rw mp k).halted = true) :
    ∀ j, apiIter env cf rw mp (k + j) = apiIter env cf rw mp k := by
  intro j
  induction j with
  | zero => rfl
  | succ j ih =>
    show apiStep env cf rw mp (apiIter env cf rw mp (k + j)) = _
    rw [ih, apiStep_of_halted env cf rw mp _ h]

/-- C6: with N listing pages that each succeed on the first attempt with
a non-empty jobs array, a next-link on pages 1..N-1 and none on page N,
N within the page budget, and the quota unmet before each page, the API
strategy issues exactly N listing-page requests and then exits its
pagination loop. -/
theorem c6_pagination_exact_fetches (env : Env) (cf : String → String)
    (rw mp N : Nat) (pj : Nat → PageJson)
    (hresp : ∀ k, k < N → env.page (k + 1) 1 = .resp 200 (some (pj (k + 1))))
    (hdata : ∀ k, k < N → (dataOf (pj (k + 1))).isEmpty = false)
    (hnext : ∀ k, k < N → k + 1 ≠ N → truthy (pj (k + 1)).next = true)
    (hlast : truthy (pj N).next = false)
    (hN : 1 ≤ N) (hmp : N ≤ mp)
    (hquota : ∀ k, k < N → (apiIter env cf rw mp k).saved < rw)
    (hnothrow : ∀ k, k + 1 < N → (apiIter env cf rw mp (k + 1)).thrown = false) :
    (collectFromApiRun env cf rw mp).fetches = N ∧
      (collectFromApiRun env cf rw mp).halted = true := by
  have inv : ∀ k, k < N →
      (apiIter env cf rw mp k).halted = false ∧
      (apiIter env cf rw mp k).page = k + 1 ∧
      (apiIter env cf rw mp k).fetches = k := by
    intro k
    induction k with
    | zero => intro _; exact ⟨rfl, rfl, rfl⟩
    | succ k ih =>
      intro hk1
      have hk : k < N := Nat.lt_of_succ_lt hk1
      obtain ⟨ih1, ih2, ih3⟩ := ih hk
      have hs : (apiIter env cf rw mp k).saved < rw := hquota k hk
      have hp : (apiIter env cf rw mp k).page ≤ mp := by
        rw [ih2]; exact le_trans (Nat.le_of_lt hk1) hmp
      have hf : pageFetch (env.page (apiIter env cf rw mp k).page) env.jit
          = ⟨1, [], some (pj (k + 1))⟩ := by
        rw [ih2]
        exact pageFetch_first_success _ _ 200 _ (hresp k hk) (by norm_num)
      have hrun := apiStep_run env cf rw mp (apiIter env cf rw mp k) (pj (k + 1))
        ih1 hs hp hf (hdata k hk)
      have htr := hnext k hk (Nat.ne_of_lt hk1)
      have hfr := processBatches_frame env cf rw (dataOf (pj (k + 1)))
        { apiIter env cf rw mp k with fetches := (apiIter env cf rw mp k).fetches + 1 }
      have hnt := hnothrow k hk1
      show (apiStep env cf rw mp (apiIter env cf rw mp k)).halted = false ∧
        (apiStep env cf rw mp (apiIter env cf rw mp k)).page = k + 1 + 1 ∧
        (apiStep env cf rw mp (apiIter env cf rw mp k)).fetches = k + 1
      rw [hrun]
      split
      · next hth =>
        exfalso
        have hthr : (apiIter env cf rw mp (k + 1)).thrown = true := by
          show (apiStep env cf rw mp (apiIter env cf rw mp k)).thrown = true
          rw [hrun, if_pos hth]
          exact hth
        rw [hnt] at hthr
        exact Bool.noConfusion hthr
      · refine ⟨hfr.2.2.trans ih1, ?_, ?_⟩
        · show (processBatches env cf rw (dataOf (pj (k + 1))) _).page + 1 = k + 1 + 1
          rw [hfr.1]
          show (apiIter env cf rw mp k).page + 1 = k + 1 + 1
          rw [ih2]
        · show (processBatches env cf rw (dataOf (pj (k + 1))) _).fetches = k + 1
          rw [hfr.2.1]
          show (apiIter env cf rw mp k).fetches + 1 = k + 1
          rw [ih3]
  obtain ⟨m, rfl⟩ : ∃ m, N = m + 1 := ⟨N - 1, (Nat.succ_pred_eq_of_pos hN).symm⟩
  obtain ⟨ih1, ih2, ih3⟩ := inv m (Nat.lt_succ_self m)
  have hs : (apiIter env cf rw mp m).saved < rw := hquota m (Nat.lt_succ_self m)
  have hp : (apiIter env cf rw mp m).page ≤ mp := by
    rw [ih2]; exact hmp
  have hf : pageFetch (env.page (apiIter env cf rw mp m).page) env.jit
      = ⟨1, [], some (pj (m + 1))⟩ := by
    rw [ih2]
    exact pageFetch_first_success _ _ 200 _ (hresp m (Nat.lt_succ_self m)) (by norm_num)
  have hrun := apiStep_run env cf rw mp (apiIter env cf rw mp m) (pj (m + 1))
    ih1 hs hp hf (hdata m (Nat.lt_succ_self m))
  have hfr := processBatches_frame env cf rw (dataOf (pj (m + 1)))
    { apiIter env cf rw mp m with fetches := (apiIter env cf rw mp m).fetches + 1 }
  have hfin : (apiIter env cf rw mp (m + 1)).halted = true ∧
      (apiIter env cf rw mp (m + 1)).fetches = m + 1 := by
    show (apiStep env cf rw mp (apiIter env cf rw mp m)).halted = true ∧
      (apiStep env cf rw mp (apiIter env cf rw mp m)).fetches = m + 1
    rw [hrun]
    split
    · refine ⟨rfl, ?_⟩
      show (processBatches env cf rw (dataOf (pj (m + 1))) _).fetches = m + 1
      rw [hfr.2.1]
      show (apiIter env cf rw mp m).fetches + 1 = m + 1
      rw [ih3]
    · rw [if_neg (by rw [hlast]; exact Bool.false_ne_true)]
      refine ⟨rfl, ?_⟩
      show (processBatches env cf rw (dataOf (pj (m + 1))) _).fetches = m + 1
      rw [hfr.2.1]
      show (apiIter env cf rw mp m).fetches + 1 = m + 1
      rw [ih3]
  have hstable := apiIter_halted_stable env cf rw mp (m + 1) hfin.1 (mp + 1 - (m + 1))
  have heq : m + 1 + (mp + 1 - (m + 1)) = mp + 1 := by omega
  unfold collectFromApiRun
  rw [← heq, hstable]
  exact ⟨hfin.2, hfin.1⟩

/-- Witness for `c6_pagination_exact_fetches` on the two-page `envC6`
listing source: exactly 2 listing fetches. -/
theorem c6_pagination_exact_fetches_witness :
    (collectFromApiRun envC6 cf0 10 5).fetches = 2 ∧
      (collectFromApiRun envC6 cf0 10 5).halted = true :=
  c6_pagination_exact_fetches envC6 cf0 10 5 2 pjC6
    (by decide) (by decide) (by decide) (by decide) (by decide) (by decide)
    (by decide)
    (fun k hk => by
      have hk0 : k = 0 := by omega
      subst hk0
      rfl)

/-- A false `seen.has` membership test means the key is not in the set. -/
theorem seenHas_false_not_mem {l : List String} {k : String}
    (h : seenHas l k = false) : k ∉ l := by
  intro hm
  simp [seenHas, List.elem_iff] at h
  exact h hm

/-- A value delivered by `Promise.all` came from one of the callbacks. -/
theorem allSome_mem {l : List (Option Item)} {items : List Item}
    (h : allSome l = some items) : ∀ i ∈ items, some i ∈ l := by
  induction l generalizing items with
  | nil =>
    obtain rfl : ([] : List Item) = items := Option.some_inj.1 h
    intro i hi
    simp at hi
  | cons o rest ih =>
    cases o with
    | none => exact Option.noConfusion h
    | some x =>
      cases hr : allSome rest with
      | none => rw [allSome, hr] at h; exact Option.noConfusion h
      | some tl =>
        rw [allSome, hr] at h
        obtain rfl : x :: tl = items := Option.some_inj.1 h
        intro i hi
        rcases List.mem_cons.1 hi with rfl | hi
        · exact List.mem_cons_self _ _
        · exact List.mem_cons_of_mem _ (ih hr i hi)

/-- The push loop preserves the API-state invariant, given that the
pushed batch satisfies `P`: the quota check guards every push, the key
is recorded iff the record is pushed, and only unseen keys pass. -/
theorem pushLoop_ainv (rw : Nat) (P : Item → Prop) (l : List Item) (st : ApiState)
    (hst : ainv rw P st) (hl : ∀ i ∈ l, P i) : ainv rw P (pushLoop rw l st) := by
  induction l generalizing st with
  | nil => exact hst
  | cons item rest ih =>
    by_cases h1 : rw ≤ st.saved
    · simpa [pushLoop, h1] using hst
    · by_cases h2 : (keyOf item == "" || seenHas st.seen (keyOf item)) = true
      · simp only [pushLoop, h1, if_neg, if_pos, h2, Bool.false_eq_true, if_false]
        exact ih st hst (fun i hi => hl i (List.mem_cons_of_mem item hi))
      · simp only [pushLoop, h1, if_neg, Bool.false_eq_true, if_false, h2]
        have hlt : st.saved < rw := Nat.lt_of_not_le h1
        have h2f : (keyOf item == "" || seenHas st.seen (keyOf item)) = false := by
          cases hx : (keyOf item == "" || seenHas st.seen (keyOf item)) with
          | false => rfl
          | true => exact absurd hx h2
        have hnm : keyOf item ∉ st.seen :=
          seenHas_false_not_mem (Bool.or_eq_false_iff.1 h2f).2
        obtain ⟨c1, c2, c3, c4, c5⟩ := hst
        refine ih _ ⟨hlt, ?_, ?_, ?_, ?_⟩
          (fun i hi => hl i (List.mem_cons_of_mem item hi))
        · simp [List.length_append, ← c2]
        · simp [List.map_append, List.reverse_append, ← c3]
        · exact List.nodup_cons.2 ⟨hnm, c4⟩
        · intro i hi
          rcases List.mem_append.1 hi with hi | hi
          · exact c5 i hi
          · rw [List.mem_singleton.1 hi]
            exact hl item (List.mem_cons_self item rest)

/-- The chunking loop preserves the invariant: every chunk it pushes is
made of `enrichItem` results. -/
theorem processBatchesAux_ainv (env : Env) (cf : String → String) (rw : Nat)
    (P : Item → Prop) (fuel : Nat) (l : List Job) (st : ApiState)
    (hP : ∀ seen job i, enrichItem env cf seen job = some i → P i)
    (hst : ainv rw P st) : ainv rw P (processBatchesAux env cf rw fuel l st) := by
  induction fuel generalizing l st with
  | zero => exact hst
  | succ fuel ih =>
    cases l with
    | nil => exact hst
    | cons j rest =>
      by_cases h : st.saved < rw
      · simp only [processBatchesAux, h, if_pos]
        cases hm : allSome (((j :: rest).take 12).map (enrichItem env cf st.seen)) with
        | none =>
          simp only [hm]
          exact hst
        | some results =>
          simp only [hm]
          refine ih ((j :: rest).drop 12) _ (pushLoop_ainv rw P _ st hst ?_)
          intro i hi
          obtain ⟨jb, _, hj⟩ := List.mem_map.1 (allSome_mem hm i hi)
          exact hP st.seen jb i hj
      · simp only [processBatchesAux, h, if_neg, if_false]
        exact hst

/-- One pagination step preserves the invariant (the step only adds
fetch counts, toggles the exit flag, advances the page, or pushes
batches through the guarded loops). -/
theorem apiStep_ainv (env : Env) (cf : String → String) (rw mp : Nat)
    (P : Item → Prop) (st : ApiState)
    (hP : ∀ seen job i, enrichItem env cf seen job = some i → P i)
    (hst : ainv rw P st) : ainv rw P (apiStep env cf rw mp st) := by
  unfold apiStep
  by_cases hh : st.halted = true
  · rw [if_pos hh]; exact hst
  · rw [if_neg hh]
    by_cases hc : st.saved < rw ∧ st.page ≤ mp
    · rw [if_pos hc]
      dsimp only
      split
      · exact hst
      · split
        · exact hst
        · split
          · exact processBatchesAux_ainv env cf rw P _ _ _ hP hst
          · split
            · exact processBatchesAux_ainv env cf rw P _ _ _ hP hst
            · exact processBatchesAux_ainv env cf rw P _ _ _ hP hst
    · rw [if_neg hc]; exact hst

/-- The whole API strategy run satisfies the invariant from the empty
initial state. -/
theorem collectFromApiRun_ainv (env : Env) (cf : String → String) (rw mp : Nat)
    (P : Item → Prop)
    (hP : ∀ seen job i, enrichItem env cf seen job = some i → P i) :
    ainv rw P (collectFromApiRun env cf rw mp) := by
  have h0 : ainv rw P ({} : ApiState) :=
    ⟨Nat.zero_le rw, rfl, rfl, List.nodup_nil, by intro i hi; simp at hi⟩
  have hall : ∀ k, ainv rw P (apiIter env cf rw mp k) := by
    intro k
    induction k with
    | zero => exact h0
    | succ k ih => exact apiStep_ainv env cf rw mp P _ hP ih
  exact hall (mp + 1)

/-- The sitemap push loop preserves its invariant: each push is guarded
by the quota and the seen-set, and records the fetched URL. -/
theorem smLoop_sinv (env : Env) (cf : String → String) (rw A B : Nat)
    (P : Item → Prop) (urls : List String) (st : SmState)
    (hP : ∀ u i, fetchJobPage cf u (env.jobPage u) = some i → P i)
    (hst : sinv rw A B P st) : sinv rw A B P (smLoop env cf rw urls st) := by
  induction urls generalizing st with
  | nil => exact hst
  | cons url rest ih =>
    by_cases h1 : rw ≤ st.saved
    · simpa [smLoop, h1] using hst
    · by_cases h2 : seenHas st.seen url = true
      · simp only [smLoop, h1, if_neg, h2, if_pos]
        exact ih st hst
      · simp only [smLoop, h1, if_neg, h2, Bool.false_eq_true, if_false]
        cases hfp : fetchJobPage cf url (env.jobPage url) with
        | none => exact ih st hst
        | some item =>
          obtain ⟨c1, c2, c3, c4, c5⟩ := hst
          have h2f : seenHas st.seen url = false := by
            cases hx : seenHas st.seen url with
            | false => rfl
            | true => exact absurd hx h2
          have hnm : url ∉ st.seen := seenHas_false_not_mem h2f
          refine ih _ ⟨Nat.lt_of_not_le h1, ?_, ?_, ?_, ?_⟩
          · simp [List.length_append, c2]; omega
          · simp [c3]; omega
          · exact List.nodup_cons.2 ⟨hnm, c4⟩
          · intro i hi
            rcases List.mem_append.1 hi with hi | hi
            · exact c5 i hi
            · rw [List.mem_singleton.1 hi]
              exact hP url item hfp

/-- The whole sitemap strategy run satisfies its invariant relative to
the sink and seen-set it inherited. -/
theorem smRun_sinv (env : Env) (cf : String → String) (rw : Nat)
    (seen : List String) (sink : List Item) (P : Item → Prop)
    (hP : ∀ u i, fetchJobPage cf u (env.jobPage u) = some i → P i)
    (hnd : seen.Nodup) (hgood : ∀ i ∈ sink, P i) :
    sinv rw sink.length seen.length P (smRun env cf rw seen sink) := by
  have h0 : sinv rw sink.length seen.length P ⟨0, seen, sink⟩ :=
    ⟨Nat.zero_le rw, by simp, by simp, hnd, hgood⟩
  unfold smRun
  cases env.smIndex with
  | error e => exact h0
  | ok locs =>
    by_cases h : (locs.filter (fun u => jsIncludes u "sitemap_active_jobs")).isEmpty
    · simpa [h] using h0
    · simp only [h, Bool.false_eq_true, if_false]
      exact smLoop_sinv env cf rw _ _ P _ _ hP h0

/-- C1 counterexample: on `envC1` with quota 2 the API strategy pushes
one record, then `new URL("http://")` throws inside the chunk callback;
the orchestrator's catch records 0 saved, the sitemap fallback receives
the full quota 2 and pushes two more records, so the dataset holds 3 >
2 records. -/
theorem c1_counterexample :
    (collectFromApiRun envC1 cf0 2 2).thrown = true ∧
      (collectFromApiRun envC1 cf0 2 2).sink.length = 1 ∧
      (runPipeline envC1 cf0 2 2).smQuota = 2 ∧
      (runPipeline envC1 cf0 2 2).sink.length = 3 ∧
      ¬((runPipeline envC1 cf0 2 2).sink.length ≤ 2) := by
  decide

/-- C1 amended: the reported total never exceeds the quota, and when the
API strategy does not throw neither does the dataset's record count; but
a `new URL` TypeError after `k` API pushes hands the sitemap fallback the
full quota, so in general the dataset is only bounded by the API sink
plus the quota (hence by twice the quota). -/
theorem c1_quota_amended (env : Env) (cf : String → String) (rw mp : Nat) :
    (runPipeline env cf rw mp).totalSaved ≤ rw ∧
      (collectFromApiRun env cf rw mp).sink.length ≤ rw ∧
      (runPipeline env cf rw mp).sink.length ≤
        (collectFromApiRun env cf rw mp).sink.length + rw ∧
      ((collectFromApiRun env cf rw mp).thrown = false →
        (runPipeline env cf rw mp).sink.length ≤ rw) := by
  obtain ⟨a1, a2, a3, a4, a5⟩ :=
    collectFromApiRun_ainv env cf rw mp (fun _ => True) (fun _ _ _ _ => trivial)
  have hrle : recordedSaved (apiOutcome env cf rw mp) ≤ rw := by
    unfold apiOutcome
    split
    · exact Nat.zero_le rw
    · exact a1
  unfold runPipeline
  cases hb : (bootFetch env.boot env.jit).html with
  | none =>
    exact ⟨Nat.zero_le rw, by omega, Nat.zero_le _, fun _ => Nat.zero_le rw⟩
  | some html =>
    dsimp only
    by_cases h : recordedSaved (apiOutcome env cf rw mp) < rw
    · rw [if_pos h]
      obtain ⟨s1, s2, s3, s4, s5⟩ :=
        smRun_sinv env cf (rw - recordedSaved (apiOutcome env cf rw mp))
          (collectFromApiRun env cf rw mp).seen (collectFromApiRun env cf rw mp).sink
          (fun _ => True) (fun _ _ _ => trivial) a4 (fun _ _ => trivial)
      dsimp only
      refine ⟨by omega, by omega, by omega, ?_⟩
      intro hth
      have hrec : recordedSaved (apiOutcome env cf rw mp)
          = (collectFromApiRun env cf rw mp).saved := by
        unfold apiOutcome
        rw [hth]
        rfl
      omega
    · rw [if_neg h]
      dsimp only
      exact ⟨hrle, by omega, by omega, fun _ => by omega⟩

/-- Witness for `c1_quota_amended` on the no-throw run `envC6`: the
dataset record count stays within the quota. -/
theorem c1_quota_amended_witness :
    (collectFromApiRun envC6 cf0 10 5).thrown = false ∧
      (runPipeline envC6 cf0 10 5).sink.length ≤ 10 ∧
      (runPipeline envC6 cf0 10 5).totalSaved ≤ 10 :=
  ⟨rfl, (c1_quota_amended envC6 cf0 10 5).2.2.2 rfl,
    (c1_quota_amended envC6 cf0 10 5).1⟩

/-- C2 amended: the run's shared seen-set never records a key twice and
grows by exactly one entry per persisted record (the API strategy's key
`url || id || serialized item`, the sitemap strategy's *fetched* URL);
in particular the API strategy alone never persists two records with
the same code-level key.  (Deduplication by the record's resolved
url/id key across strategies does not hold — see the counterexample.) -/
theorem c2_seen_key_dedup (env : Env) (cf : String → String) (rw mp : Nat) :
    (runPipeline env cf rw mp).seen.Nodup ∧
      (runPipeline env cf rw mp).seen.length = (runPipeline env cf rw mp).sink.length ∧
      ((collectFromApiRun env cf rw mp).sink.map keyOf).Nodup := by
  obtain ⟨a1, a2, a3, a4, a5⟩ :=
    collectFromApiRun_ainv env cf rw mp (fun _ => True) (fun _ _ _ _ => trivial)
  have hkeys : ((collectFromApiRun env cf rw mp).sink.map keyOf).Nodup :=
    List.nodup_reverse.1 (a3 ▸ a4)
  have halen : (collectFromApiRun env cf rw mp).seen.length
      = (collectFromApiRun env cf rw mp).sink.length := by
    rw [a3]
    simp
  unfold runPipeline
  cases hb : (bootFetch env.boot env.jit).html with
  | none => exact ⟨List.nodup_nil, rfl, hkeys⟩
  | some html =>
    dsimp only
    by_cases h : recordedSaved (apiOutcome env cf rw mp) < rw
    · rw [if_pos h]
      obtain ⟨s1, s2, s3, s4, s5⟩ :=
        smRun_sinv env cf (rw - recordedSaved (apiOutcome env cf rw mp))
          (collectFromApiRun env cf rw mp).seen (collectFromApiRun env cf rw mp).sink
          (fun _ => True) (fun _ _ _ => trivial) a4 (fun _ _ => trivial)
      refine ⟨s4, ?_, hkeys⟩
      dsimp only
      omega
    · rw [if_neg h]
      exact ⟨a4, halen, hkeys⟩

/-- Normalized strings stay normalized when produced by the normalizer. -/
theorem optNorm_some_normalizeSpace (s : String) :
    optNorm (some (normalizeSpace s)) := by
  intro t ht
  obtain rfl : normalizeSpace s = t := Option.some_inj.1 ht
  exact normalizeSpace_wsNormalized s

/-- A null field is vacuously normalized. -/
theorem optNorm_none : optNorm none := fun _ ht => Option.noConfusion ht

/-- Normalization survives a conditional between normalized branches. -/
theorem optNorm_ite (c : Prop) [Decidable c] (a b : Option String)
    (ha : optNorm a) (hb : optNorm b) : optNorm (if c then a else b) := by
  by_cases h : c
  · simpa [h] using ha
  · simpa [h] using hb

/-- Normalization survives a `||` chain of normalized operands. -/
theorem optNorm_firstTruthy {l : List (Option String)}
    (h : ∀ o ∈ l, optNorm o) : optNorm (firstTruthy l) :=
  fun t ht => h _ (firstTruthy_mem ht) t rfl

/-- Normalization survives a binary `||`. -/
theorem optNorm_jsOr {a b : Option String} (ha : optNorm a) (hb : optNorm b) :
    optNorm (jsOr a b) := by
  unfold jsOr
  by_cases h : truthy a = true
  · simpa [h] using ha
  · simpa [h] using hb

/-- `mapApiJob` normalizes title, company, location and description
text on every record it returns. -/
theorem goodFields_mapApiJob (cf : String → String) (job : Job)
    (detail additional : Detail) (s : String) (i : Item)
    (h : mapApiJob cf job detail additional s = some i) : goodFields i := by
  unfold mapApiJob at h
  cases hu : apiJobUrl job detail additional with
  | error e => rw [hu] at h; exact Option.noConfusion h
  | ok url =>
    rw [hu] at h
    dsimp only at h
    rw [← Option.some_inj.1 h]
    exact ⟨optNorm_some_normalizeSpace _, optNorm_some_normalizeSpace _,
      optNorm_some_normalizeSpace _,
      optNorm_ite _ _ _ (optNorm_some_normalizeSpace _)
        (optNorm_ite _ _ _ (optNorm_some_normalizeSpace _) optNorm_none)⟩

/-- `mapJsonLdJob` normalizes title, company, location and description
text on every record it returns. -/
theorem goodFields_mapJsonLdJob (cf : String → String) (ld : LdJob) (i : Item)
    (h : mapJsonLdJob cf ld = some i) : goodFields i := by
  unfold mapJsonLdJob at h
  cases hu : ldJobUrl ld with
  | error e => rw [hu] at h; exact Option.noConfusion h
  | ok url =>
    rw [hu] at h
    dsimp only at h
    rw [← Option.some_inj.1 h]
    exact ⟨optNorm_some_normalizeSpace _, optNorm_some_normalizeSpace _,
      optNorm_some_normalizeSpace _,
      optNorm_ite _ _ _ (optNorm_some_normalizeSpace _) optNorm_none⟩

/-- Every record `fetchJobPage` produces has normalized core fields. -/
theorem goodFields_fetchJobPage (cf : String → String) (u : String)
    (r : FetchOut HtmlPage) (i : Item)
    (h : fetchJobPage cf u r = some i) : goodFields i := by
  unfold fetchJobPage at h
  cases r with
  | thrown => exact Option.noConfusion h
  | resp st page =>
    dsimp only at h
    by_cases hs : 400 ≤ st
    · rw [if_pos hs] at h
      exact Option.noConfusion h
    · rw [if_neg hs] at h
      cases hld : page.ld with
      | some ld =>
        rw [hld] at h
        exact goodFields_mapJsonLdJob cf ld i h
      | none =>
        rw [hld] at h
        dsimp only at h
        rw [← Option.some_inj.1 h]
        exact ⟨optNorm_some_normalizeSpace _, optNorm_some_normalizeSpace _,
          optNorm_some_normalizeSpace _,
          optNorm_ite _ _ _ (optNorm_some_normalizeSpace _) optNorm_none⟩

/-- The HTML-page merge keeps the core fields normalized. -/
theorem goodFields_applyEnrich (item hp : Item)
    (h1 : goodFields item) (h2 : goodFields hp) :
    goodFields (applyEnrich item hp) := by
  obtain ⟨t1, c1, l1, d1⟩ := h1
  obtain ⟨t2, c2, l2, d2⟩ := h2
  refine ⟨t1, c1, ?_, ?_⟩
  · refine optNorm_firstTruthy ?_
    intro o ho
    rcases List.mem_cons.1 ho with rfl | ho
    · exact l1
    · rcases List.mem_singleton.1 ho with rfl
      exact l2
  · exact optNorm_ite _ _ _ (optNorm_jsOr d2 d1) d1

/-- Every item the API strategy's chunk callback returns has normalized
core fields. -/
theorem goodFields_enrichItem (env : Env) (cf : String → String)
    (seen : List String) (job : Job) (i : Item)
    (h : enrichItem env cf seen job = some i) : goodFields i := by
  unfold enrichItem at h
  dsimp only at h
  cases hm : mapApiJob cf job (env.details job.id).1 (env.details job.id).2 "api" with
  | none => rw [hm] at h; exact Option.noConfusion h
  | some item =>
    rw [hm] at h
    have hg : goodFields item := goodFields_mapApiJob cf job _ _ "api" item hm
    rw [← Option.some_inj.1 h]
    split
    · split
      · next hc hfp =>
        exact goodFields_applyEnrich _ _ hg (goodFields_fetchJobPage cf _ _ _ hfp)
      · exact hg
    · exact hg

/-- C8 amended: for every record persisted by any run, the `title`,
`company`, `location` and `description_text` fields are
whitespace-normalized.  (The remaining string fields —
`security_clearance`, `salary`, `job_type`, `date_posted` — are passed
through raw from their sources; see the counterexample.) -/
theorem c8_normalized_core_fields (env : Env) (cf : String → String) (rw mp : Nat) :
    ∀ i ∈ (runPipeline env cf rw mp).sink, goodFields i := by
  have ha := collectFromApiRun_ainv env cf rw mp goodFields
    (fun seen job i h => goodFields_enrichItem env cf seen job i h)
  unfold runPipeline
  cases hb : (bootFetch env.boot env.jit).html with
  | none => intro i hi; simp at hi
  | some html =>
    dsimp only
    by_cases h : recordedSaved (apiOutcome env cf rw mp) < rw
    · rw [if_pos h]
      have hs := smRun_sinv env cf (rw - recordedSaved (apiOutcome env cf rw mp))
        (collectFromApiRun env cf rw mp).seen (collectFromApiRun env cf rw mp).sink
        goodFields (fun u i hfp => goodFields_fetchJobPage cf u _ i hfp)
        ha.2.2.2.1 ha.2.2.2.2
      intro i hi
      exact hs.2.2.2.2 i hi
    · rw [if_neg h]
      intro i hi
      exact ha.2.2.2.2 i hi

/-- Witness for `c8_normalized_core_fields`: applied to the record
persisted by the `envC9` run, whose title value is `"X"`. -/
theorem c8_normalized_core_fields_witness : wsNormalized "X" = true :=
  (c8_normalized_core_fields envC9 cf0 1 1 itemC9 (by decide)).1 "X" rfl

/-- C9 amended: the dedup key of any record (`url || id ||
JSON.stringify(item)`) is never empty — so the push loop's `!key` guard
never rejects a record, and a record with both `id` and `url` null is
keyed by its serialization and can be persisted. -/
theorem c9_nonempty_dedup_key (i : Item) :
    keyOf i ≠ "" ∧ (i.url = none → i.id = none → keyOf i = serializeItem i) := by
  constructor
  · unfold keyOf
    cases hf : firstTruthy [i.url, i.id] with
    | some k =>
      simp only [hf]
      exact firstTruthy_ne_empty hf
    | none =>
      simp only [hf]
      intro h
      have hlen := congrArg String.length h
      rw [serializeItem, String.length_append] at hlen
      have h5 : "item:".length = 5 := rfl
      have h0 : "".length = 0 := rfl
      omega
  · intro hu hd
    unfold keyOf
    simp [firstTruthy, hu, hd, truthy]

/-- Witness for `c9_nonempty_dedup_key` at the id-less, url-less record
the `envC9` run persists. -/
theorem c9_nonempty_dedup_key_witness :
    keyOf itemC9 ≠ "" ∧ keyOf itemC9 = serializeItem itemC9 :=
  ⟨(c9_nonempty_dedup_key itemC9).1, (c9_nonempty_dedup_key itemC9).2 rfl rfl⟩

end ClearedJobs
